import Mathlib

/-!
Verification of the build-util decision layer (`pkg/build/util/util.go`).

The Go source is shallowly embedded: Go structs become structures, Go maps
become association lists (insertion conses in front, lookup takes the first
match, which models overwrite-on-insert), Go slices become lists, Go nil
pointers become `Option`, and a Go runtime panic (slice bounds out of range)
becomes `none` in an `Option` result.  Machine integers (`int64`) are
modelled as `Int` with explicit range clamping where the source clamps.
-/

set_option autoImplicit false

namespace kapi

/-- `kapi.EnvVar`: an environment variable, an ordered (name, value) pair. -/
structure EnvVar where
  name : String
  value : String
deriving DecidableEq, Repr

/-- `kapi.ObjectReference`: reference to an object (only the fields the
claims inspect are carried; the remaining fields do not influence any
function under verification). -/
structure ObjectReference where
  kind : String
  name : String
deriving DecidableEq, Repr

/-- `kapi.TypeMeta`: kind/apiVersion metadata of an API object. -/
structure TypeMeta where
  kind : String
  apiVersion : String
deriving DecidableEq, Repr

/-- `kapi.ListMeta`: list metadata (resource version, self link). -/
structure ListMeta where
  selfLink : String
  resourceVersion : String
deriving DecidableEq, Repr

/-- `kapi.Pod`: only the annotations map is read by the code under
verification (`GetBuildName`). -/
structure Pod where
  annotations : List (String × String)
deriving DecidableEq, Repr

end kapi

namespace buildapi

/-- Modelled from the spec: the build phase enum
`{New, Pending, Running, Complete, Failed, Error, Cancelled}`.  The Go type
lives outside `src/`; the spec lists exactly these variants. -/
inductive BuildPhase where
  | New
  | Pending
  | Running
  | Complete
  | Failed
  | Error
  | Cancelled
deriving DecidableEq, Repr

/-- Modelled from the spec: the run-policy enum
`{Parallel, Serial, SerialLatestOnly}`. -/
inductive BuildRunPolicy where
  | Parallel
  | Serial
  | SerialLatestOnly
deriving DecidableEq, Repr

/-- `buildapi.Build`: identity (namespace, name), annotation and label maps,
and the status phase.  Go's `namespace` field is spelled `nspace` because
`namespace` is a Lean keyword. -/
structure Build where
  nspace : String
  name : String
  annotations : List (String × String)
  labels : List (String × String)
  statusPhase : BuildPhase
deriving DecidableEq, Repr

/-- `buildapi.BuildConfig`: only the annotations map is read by the code
under verification (`IsPaused`). -/
structure BuildConfig where
  annotations : List (String × String)
deriving DecidableEq, Repr

/-- `buildapi.SourceBuildStrategy`: carries a value-typed `From` object
reference (the Go code takes its address with `&`). -/
structure SourceBuildStrategy where
  From : kapi.ObjectReference
deriving DecidableEq, Repr

/-- `buildapi.DockerBuildStrategy`: carries a pointer-typed
`From *ObjectReference` — the Go code returns `strategy.DockerStrategy.From`
directly, without `&`, which typechecks only if `From` is already a
pointer; hence `Option` here. -/
structure DockerBuildStrategy where
  From : Option kapi.ObjectReference
deriving DecidableEq, Repr

/-- `buildapi.CustomBuildStrategy`: carries a value-typed `From` object
reference (the Go code takes its address with `&`). -/
structure CustomBuildStrategy where
  From : kapi.ObjectReference
deriving DecidableEq, Repr

/-- `buildapi.BuildStrategy`: a struct of three nilable variant pointers,
at most one of which is expected to be set. -/
structure BuildStrategy where
  SourceStrategy : Option SourceBuildStrategy
  DockerStrategy : Option DockerBuildStrategy
  CustomStrategy : Option CustomBuildStrategy
deriving DecidableEq, Repr

/-- `buildapi.BuildList`: type metadata, list metadata, and the items. -/
structure BuildList where
  typeMeta : kapi.TypeMeta
  listMeta : kapi.ListMeta
  items : List Build
deriving DecidableEq, Repr

/-- Modelled from the spec: fixed metadata key constant (`buildapi`
constant defined outside `src/`; the exact string is irrelevant to every
claim, only that it is a fixed key). -/
def BuildAnnotation : String := "openshift.io/build.name"

/-- Modelled from the spec: fixed metadata key constant (owning-config
annotation). -/
def BuildConfigAnnotation : String := "openshift.io/build-config.name"

/-- Modelled from the spec: fixed metadata key constant (owning-config
label, current scheme). -/
def BuildConfigLabel : String := "openshift.io/build-config.name"

/-- Modelled from the spec: fixed metadata key constant (owning-config
label, deprecated scheme). -/
def BuildConfigLabelDeprecated : String := "buildconfig"

/-- Modelled from the spec: fixed metadata key constant (build-number
annotation). -/
def BuildNumberAnnotation : String := "openshift.io/build.number"

/-- Modelled from the spec: fixed metadata key constant (pause
annotation). -/
def BuildConfigPausedAnnotation : String := "openshift.io/build-config.paused"

/-- Modelled from the spec: fixed metadata key constant (run-policy
label). -/
def BuildRunPolicyLabel : String := "openshift.io/build.start-policy"

end buildapi

namespace strconv

/-- Error cases of Go's `strconv` parsing: `ErrSyntax` and `ErrRange`. -/
inductive ParseIntError where
  | invalid
  | outOfRange
deriving DecidableEq, Repr

/-- Value of a decimal digit character, `none` for any other character
(Go base-10 parsing accepts only '0'..'9'; underscores are rejected when
an explicit base is given). -/
def digitVal (c : Char) : Option Nat :=
  if '0' ≤ c ∧ c ≤ '9' then some (c.toNat - '0'.toNat) else none

/-- Accumulate decimal digits; `none` on the first non-digit character. -/
def parseDigitsAux : List Char → Nat → Option Nat
  | [], acc => some acc
  | c :: cs, acc =>
    match digitVal c with
    | none => none
    | some d => parseDigitsAux cs (acc * 10 + d)

/-- Parse a non-empty all-digit string; `none` when empty or on a bad
character. -/
def parseDigits (l : List Char) : Option Nat :=
  match l with
  | [] => none
  | _ :: _ => parseDigitsAux l 0

/-- Go `strconv.ParseInt(s, 10, 64)`: returns the parsed value paired with
an optional error.  Empty string, lone sign, or any non-digit character
yields `(0, ErrSyntax)`; a value outside the `int64` range yields the
clamped bound together with `ErrRange`; otherwise the value with no
error. -/
def ParseInt (s : String) : Int × Option ParseIntError :=
  match s.toList with
  | [] => (0, some ParseIntError.invalid)
  | c :: cs =>
    if c = '-' then
      match parseDigits cs with
      | none => (0, some ParseIntError.invalid)
      | some n =>
        if (2 : Nat) ^ 63 < n then (-((2 : Int) ^ 63), some ParseIntError.outOfRange)
        else (-(n : Int), none)
    else if c = '+' then
      match parseDigits cs with
      | none => (0, some ParseIntError.invalid)
      | some n =>
        if (2 : Nat) ^ 63 - 1 < n then ((2 : Int) ^ 63 - 1, some ParseIntError.outOfRange)
        else ((n : Int), none)
    else
      match parseDigits (c :: cs) with
      | none => (0, some ParseIntError.invalid)
      | some n =>
        if (2 : Nat) ^ 63 - 1 < n then ((2 : Int) ^ 63 - 1, some ParseIntError.outOfRange)
        else ((n : Int), none)

/-- Go `strconv.Atoi(s)`: `ParseInt(s, 10, 0)` with the platform int width
of 64 bits. -/
def Atoi (s : String) : Int × Option ParseIntError :=
  ParseInt s

end strconv

namespace util

/-- Go map lookup over the association-list model: insertion conses the new
binding in front, so first-match lookup realizes overwrite-on-insert. -/
def mapLookup {α : Type} : List (String × α) → String → Option α
  | [], _ => none
  | (k, v) :: rest, key => if k = key then some v else mapLookup rest key

/-- `GetBuildName` (util.go:22-27): name of the build pod, read from the
`BuildAnnotation` key; empty string for a nil pod or an absent key. -/
def GetBuildName (pod : Option kapi.Pod) : String :=
  match pod with
  | none => ""
  | some pod => (mapLookup pod.annotations buildapi.BuildAnnotation).getD ""

/-- `GetInputReference` (util.go:31-42): switch over the strategy variants
in the fixed order Source, Docker, Custom.  For Source and Custom the Go
code returns `&variant.From` (always non-nil); for Docker it returns the
pointer `variant.From` itself, which may be nil. -/
def GetInputReference (strategy : buildapi.BuildStrategy) : Option kapi.ObjectReference :=
  match strategy.SourceStrategy with
  | some s => some s.From
  | none =>
    match strategy.DockerStrategy with
    | some d => d.From
    | none =>
      match strategy.CustomStrategy with
      | some c => some c.From
      | none => none

/-- `IsBuildComplete` (util.go:45-47): the phase is none of Running,
Pending, New.  Dereferences its argument: see `IsBuildCompleteGo`. -/
def IsBuildComplete (build : buildapi.Build) : Bool :=
  build.statusPhase != buildapi.BuildPhase.Running &&
  build.statusPhase != buildapi.BuildPhase.Pending &&
  build.statusPhase != buildapi.BuildPhase.New

/-- Go-level `IsBuildComplete` on a possibly-nil `*Build`: the source reads
`build.Status.Phase` with no nil check, so a nil argument panics (`none`). -/
def IsBuildCompleteGo (build : Option buildapi.Build) : Option Bool :=
  match build with
  | none => none
  | some b => some (IsBuildComplete b)

/-- `IsPaused` (util.go:50-52): case-insensitive comparison of the pause
annotation against "true".  Dereferences its argument: see `IsPausedGo`. -/
def IsPaused (bc : buildapi.BuildConfig) : Bool :=
  ((mapLookup bc.annotations buildapi.BuildConfigPausedAnnotation).getD "").toLower == "true"

/-- Go-level `IsPaused` on a possibly-nil `*BuildConfig`: the source reads
`bc.Annotations` with no nil check, so a nil argument panics (`none`). -/
def IsPausedGo (bc : Option buildapi.BuildConfig) : Option Bool :=
  match bc with
  | none => none
  | some b => some (IsPaused b)

/-- Error cases of `BuildNumber`: the NotFound-style error naming the
build's namespace and name, or a propagated `strconv` parse error. -/
inductive BuildNumberError where
  | notFound (nspace name : String)
  | parseFailed (e : strconv.ParseIntError)
deriving DecidableEq, Repr

/-- `BuildNumber` (util.go:55-61): look up the build-number annotation;
when present, return `strconv.ParseInt(s, 10, 64)` verbatim (value and
error); when absent, return 0 with a NotFound-style error naming the
build's namespace and name.  Dereferences its argument: see
`BuildNumberGo`. -/
def BuildNumber (build : buildapi.Build) : Int × Option BuildNumberError :=
  match mapLookup build.annotations buildapi.BuildNumberAnnotation with
  | some stringNumber =>
    let r := strconv.ParseInt stringNumber
    (r.1, r.2.map BuildNumberError.parseFailed)
  | none => (0, some (BuildNumberError.notFound build.nspace build.name))

/-- Go-level `BuildNumber` on a possibly-nil `*Build`: the source calls
`build.GetAnnotations()` with no nil check, so a nil argument panics
(`none`). -/
def BuildNumberGo (build : Option buildapi.Build) : Option (Int × Option BuildNumberError) :=
  match build with
  | none => none
  | some b => some (BuildNumber b)

/-- `BuildRunPolicy` (util.go:65-79): read the run-policy label; map the
literal strings "Parallel", "Serial", "SerialLatestOnly"; default to
Serial on an absent key or any other value (the glog diagnostic is a
fire-and-forget side effect, not modelled).  Dereferences its argument:
see `BuildRunPolicyGo`. -/
def BuildRunPolicy (build : buildapi.Build) : buildapi.BuildRunPolicy :=
  match mapLookup build.labels buildapi.BuildRunPolicyLabel with
  | some value =>
    match value with
    | "Parallel" => buildapi.BuildRunPolicy.Parallel
    | "Serial" => buildapi.BuildRunPolicy.Serial
    | "SerialLatestOnly" => buildapi.BuildRunPolicy.SerialLatestOnly
    | _ => buildapi.BuildRunPolicy.Serial
  | none => buildapi.BuildRunPolicy.Serial

/-- Go-level `BuildRunPolicy` on a possibly-nil `*Build`: the source calls
`build.GetLabels()` with no nil check, so a nil argument panics (`none`). -/
def BuildRunPolicyGo (build : Option buildapi.Build) : Option buildapi.BuildRunPolicy :=
  match build with
  | none => none
  | some b => some (BuildRunPolicy b)

/-- `BuildNameForConfigVersion` (util.go:83-85): `"<name>-<version>"`. -/
def BuildNameForConfigVersion (name : String) (version : Int) : String :=
  name ++ "-" ++ toString version

/-- `BuildConfigSelector` (util.go:89-91), modelled as the label set it
selects on.  Modelled from the spec for the missing `buildapi.LabelValue`
helper: an exact-match predicate over the single current-scheme label key
and the given config name. -/
def BuildConfigSelector (name : String) : List (String × String) :=
  [(buildapi.BuildConfigLabel, name)]

/-- `BuildConfigSelectorDeprecated` (util.go:95-97): exact-match predicate
over the deprecated label key and the given config name. -/
def BuildConfigSelectorDeprecated (name : String) : List (String × String) :=
  [(buildapi.BuildConfigLabelDeprecated, name)]

/-- `kapi.ListOptions` as used here: only the label selector field. -/
structure ListOptions where
  labelSelector : List (String × String)
deriving DecidableEq, Repr

/-- The `buildclient.BuildLister` capability: `List(namespace, opts)`
returning a build list or an error (errors modelled as strings, opaque to
this core). -/
def BuildLister : Type :=
  String → ListOptions → Except String buildapi.BuildList

/-- The `for _, b := range result.Items { if filterFunc(b) { append } }`
loop of `BuildConfigBuilds` (util.go:115-119). -/
def filterBuildItems (filterFunc : buildapi.Build → Bool) : List buildapi.Build → List buildapi.Build
  | [] => []
  | b :: rest =>
    if filterFunc b then b :: filterBuildItems filterFunc rest
    else filterBuildItems filterFunc rest

/-- `BuildConfigBuilds` (util.go:104-121): call the lister with the
current-scheme selector; propagate a lister error unchanged; with a nil
filter return the result unmodified; otherwise build a fresh list carrying
the original TypeMeta and ListMeta and the filtered items. -/
def BuildConfigBuilds (c : BuildLister) (nspace name : String)
    (filterFunc : Option (buildapi.Build → Bool)) : Except String buildapi.BuildList :=
  match c nspace (ListOptions.mk (BuildConfigSelector name)) with
  | Except.error err => Except.error err
  | Except.ok result =>
    match filterFunc with
    | none => Except.ok result
    | some f =>
      Except.ok (buildapi.BuildList.mk result.typeMeta result.listMeta
        (filterBuildItems f result.items))

/-- `ConfigNameForBuild` (util.go:125-138): nil build yields ""; else the
owning-config annotation's value whenever the key exists; else the current
label's value whenever that key exists; else the deprecated label's value
with "" as the zero value of a missing map key. -/
def ConfigNameForBuild (build : Option buildapi.Build) : String :=
  match build with
  | none => ""
  | some b =>
    match mapLookup b.annotations buildapi.BuildConfigAnnotation with
    | some v => v
    | none =>
      match mapLookup b.labels buildapi.BuildConfigLabel with
      | some v => v
      | none => (mapLookup b.labels buildapi.BuildConfigLabelDeprecated).getD ""

/-- `VersionForBuild` (util.go:142-152): nil build yields 0; else
`strconv.Atoi` of the build-number annotation ("" when absent), returning
0 on any parse error and the parsed value otherwise. -/
def VersionForBuild (build : Option buildapi.Build) : Int :=
  match build with
  | none => 0
  | some b =>
    let r := strconv.Atoi ((mapLookup b.annotations buildapi.BuildNumberAnnotation).getD "")
    match r.2 with
    | some _ => 0
    | none => r.1

/-- The per-name record of `MergeTrustedEnvWithoutDuplicates`
(util.go:175-178): position in the filtered source list and the value. -/
structure SourceMapItem where
  index : Nat
  value : String
deriving DecidableEq, Repr

/-- The filtering loop of `MergeTrustedEnvWithoutDuplicates`
(util.go:180-192): walk `source`; keep every entry whose name is
whitelisted, appending it to the filtered list and inserting
(index, value) into the map — so a repeated whitelisted name leaves both
entries in the list but only the last one's record in the map. -/
def filterLoop (wl : List String) : List kapi.EnvVar → List kapi.EnvVar →
    List (String × SourceMapItem) → Nat → List kapi.EnvVar × List (String × SourceMapItem)
  | [], filteredSource, filteredSourceMap, _ => (filteredSource, filteredSourceMap)
  | env :: rest, filteredSource, filteredSourceMap, index =>
    if env.name ∈ wl then
      filterLoop wl rest (filteredSource ++ [env])
        ((env.name, SourceMapItem.mk index env.value) :: filteredSourceMap) (index + 1)
    else
      filterLoop wl rest filteredSource filteredSourceMap index

/-- The output walk of `MergeTrustedEnvWithoutDuplicates`
(util.go:194-204): for each output entry whose name is in the map,
optionally overwrite its value and splice the recorded position out of the
filtered list via `append(fs[:v.index], fs[v.index+1:]...)`.  The recorded
position is never adjusted for earlier removals; when it is not below the
current list length, the Go slice expression `fs[v.index+1:]` panics —
modelled as `none`. -/
def mergeLoop (m : List (String × SourceMapItem)) (sourcePrecedence : Bool) :
    List kapi.EnvVar → List kapi.EnvVar → Option (List kapi.EnvVar × List kapi.EnvVar)
  | [], filteredSource => some ([], filteredSource)
  | env :: rest, filteredSource =>
    match mapLookup m env.name with
    | none =>
      match mergeLoop m sourcePrecedence rest filteredSource with
      | none => none
      | some (r, fsOut) => some (env :: r, fsOut)
    | some v =>
      if v.index < filteredSource.length then
        match mergeLoop m sourcePrecedence rest
            (filteredSource.take v.index ++ filteredSource.drop (v.index + 1)) with
        | none => none
        | some (r, fsOut) =>
          some ((if sourcePrecedence then kapi.EnvVar.mk env.name v.value else env) :: r, fsOut)
      else none

/-- `MergeTrustedEnvWithoutDuplicates` (util.go:171-206).  The package
constant `buildapi.WhitelistEnvVarNames` is defined outside `src/`, so the
whitelist is passed as the parameter `wl`; the inner
`for _, acceptable := range WhitelistEnvVarNames` loop with `break` is
exactly list membership.  The final output is
`append(result, filteredSource...)`; `none` models the slice-bounds panic
of the removal step. -/
def MergeTrustedEnvWithoutDuplicates (wl : List String) (source : List kapi.EnvVar)
    (output : List kapi.EnvVar) (sourcePrecedence : Bool) : Option (List kapi.EnvVar) :=
  let p := filterLoop wl source [] [] 0
  match mergeLoop p.2 sourcePrecedence output p.1 with
  | none => none
  | some (r, fsOut) => some (r ++ fsOut)

/-- The whitelisted names of a source list, in source order: the names of
exactly the entries the filtering step keeps. -/
def whitelistedSourceNames (wl : List String) (source : List kapi.EnvVar) : List String :=
  (source.filter (fun e => decide (e.name ∈ wl))).map kapi.EnvVar.name

end util

/-! ## Helper lemmas -/

/-- Any entry of the filtered source list built by `filterLoop` is either an
entry of the initial accumulator or has a whitelisted name. -/
theorem filterLoop_fst_mem (wl : List String) :
    ∀ (source fs : List kapi.EnvVar) (m : List (String × util.SourceMapItem)) (i : Nat)
      (e : kapi.EnvVar), e ∈ (util.filterLoop wl source fs m i).1 → e ∈ fs ∨ e.name ∈ wl := by
  intro source
  induction source with
  | nil =>
    intro fs m i e h
    simp only [util.filterLoop] at h
    exact Or.inl h
  | cons env rest ih =>
    intro fs m i e h
    by_cases hwl : env.name ∈ wl
    · simp only [util.filterLoop, if_pos hwl] at h
      rcases ih _ _ _ e h with hfs | hname
      · rcases List.mem_append.mp hfs with h1 | h2
        · exact Or.inl h1
        · rw [List.mem_singleton.mp h2]
          exact Or.inr hwl
      · exact Or.inr hname
    · simp only [util.filterLoop, if_neg hwl] at h
      exact ih _ _ _ e h

/-- Any name bound in the lookup map built by `filterLoop` was already bound
in the initial map or is whitelisted. -/
theorem filterLoop_snd_some_wl (wl : List String) :
    ∀ (source fs : List kapi.EnvVar) (m : List (String × util.SourceMapItem)) (i : Nat)
      (n : String) (v : util.SourceMapItem),
      util.mapLookup (util.filterLoop wl source fs m i).2 n = some v →
      util.mapLookup m n ≠ none ∨ n ∈ wl := by
  intro source
  induction source with
  | nil =>
    intro fs m i n v h
    simp only [util.filterLoop] at h
    exact Or.inl (by simp [h])
  | cons env rest ih =>
    intro fs m i n v h
    by_cases hwl : env.name ∈ wl
    · simp only [util.filterLoop, if_pos hwl] at h
      rcases ih _ _ _ _ _ h with hm | hn
      · by_cases hne : env.name = n
        · exact Or.inr (hne ▸ hwl)
        · simp only [util.mapLookup, if_neg hne] at hm
          exact Or.inl hm
      · exact Or.inr hn
    · simp only [util.filterLoop, if_neg hwl] at h
      exact ih _ _ _ _ _ h

/-- For a name that is not a whitelisted source name, `filterLoop` leaves
the lookup result unchanged. -/
theorem filterLoop_snd_not_source (wl : List String) :
    ∀ (source fs : List kapi.EnvVar) (m : List (String × util.SourceMapItem)) (i : Nat)
      (n : String), n ∉ util.whitelistedSourceNames wl source →
      util.mapLookup (util.filterLoop wl source fs m i).2 n = util.mapLookup m n := by
  intro source
  induction source with
  | nil =>
    intro fs m i n _
    simp only [util.filterLoop]
  | cons env rest ih =>
    intro fs m i n hn
    by_cases hwl : env.name ∈ wl
    · have hkeep : util.whitelistedSourceNames wl (env :: rest) =
          env.name :: util.whitelistedSourceNames wl rest := by
        simp [util.whitelistedSourceNames, List.filter, hwl]
      rw [hkeep] at hn
      have hne : env.name ≠ n := fun he => hn (he ▸ List.mem_cons_self _ _)
      have hrest : n ∉ util.whitelistedSourceNames wl rest := fun hr =>
        hn (List.mem_cons_of_mem _ hr)
      simp only [util.filterLoop, if_pos hwl]
      rw [ih _ _ _ _ hrest]
      simp [util.mapLookup, hne]
    · have hdrop : util.whitelistedSourceNames wl (env :: rest) =
          util.whitelistedSourceNames wl rest := by
        simp [util.whitelistedSourceNames, List.filter, hwl]
      rw [hdrop] at hn
      simp only [util.filterLoop, if_neg hwl]
      exact ih _ _ _ _ hn

/-- The walked part of the output is mapped entry by entry: names are
preserved, an entry whose name is not in the lookup map is untouched, and
with `sourcePrecedence = false` every entry is untouched. -/
theorem mergeLoop_frame (m : List (String × util.SourceMapItem)) (sp : Bool) :
    ∀ (res fs r fsOut : List kapi.EnvVar),
      util.mergeLoop m sp res fs = some (r, fsOut) →
      List.Forall₂ (fun a b : kapi.EnvVar =>
        b.name = a.name ∧ (util.mapLookup m a.name = none → b = a) ∧ (sp = false → b = a))
        res r := by
  intro res
  induction res with
  | nil =>
    intro fs r fsOut h
    simp only [util.mergeLoop, Option.some.injEq, Prod.mk.injEq] at h
    rw [← h.1]
    exact List.Forall₂.nil
  | cons env rest ih =>
    intro fs r fsOut h
    cases hm : util.mapLookup m env.name with
    | none =>
      simp only [util.mergeLoop, hm] at h
      cases hr : util.mergeLoop m sp rest fs with
      | none => rw [hr] at h; exact absurd h (by simp)
      | some p =>
        obtain ⟨r1, fs1⟩ := p
        rw [hr] at h
        simp only [Option.some.injEq, Prod.mk.injEq] at h
        rw [← h.1]
        exact List.Forall₂.cons ⟨rfl, fun _ => rfl, fun _ => rfl⟩ (ih _ _ _ hr)
    | some v =>
      simp only [util.mergeLoop, hm] at h
      by_cases hlt : v.index < fs.length
      · rw [if_pos hlt] at h
        cases hr : util.mergeLoop m sp rest (fs.take v.index ++ fs.drop (v.index + 1)) with
        | none => rw [hr] at h; exact absurd h (by simp)
        | some p =>
          obtain ⟨r1, fs1⟩ := p
          rw [hr] at h
          simp only [Option.some.injEq, Prod.mk.injEq] at h
          rw [← h.1]
          refine List.Forall₂.cons ⟨?_, ?_, ?_⟩ (ih _ _ _ hr)
          · cases sp <;> simp
          · intro hnone; rw [hm] at hnone; exact absurd hnone (by simp)
          · intro hsp; rw [hsp]; simp
      · rw [if_neg hlt] at h
        exact absurd h (by simp)

/-- Every entry of the walked part of the merge result corresponds to an
entry of the walked output list with the same name; a changed entry's name
is necessarily bound in the lookup map. -/
theorem mergeLoop_mem_fst (m : List (String × util.SourceMapItem)) (sp : Bool) :
    ∀ (res fs r fsOut : List kapi.EnvVar),
      util.mergeLoop m sp res fs = some (r, fsOut) →
      ∀ e ∈ r, ∃ a, a ∈ res ∧ e.name = a.name ∧ (e ≠ a → util.mapLookup m a.name ≠ none) := by
  intro res
  induction res with
  | nil =>
    intro fs r fsOut h e he
    simp only [util.mergeLoop, Option.some.injEq, Prod.mk.injEq] at h
    rw [← h.1] at he
    exact absurd he (List.not_mem_nil e)
  | cons env rest ih =>
    intro fs r fsOut h e he
    cases hm : util.mapLookup m env.name with
    | none =>
      simp only [util.mergeLoop, hm] at h
      cases hr : util.mergeLoop m sp rest fs with
      | none => rw [hr] at h; exact absurd h (by simp)
      | some p =>
        obtain ⟨r1, fs1⟩ := p
        rw [hr] at h
        simp only [Option.some.injEq, Prod.mk.injEq] at h
        rw [← h.1] at he
        rcases List.mem_cons.mp he with heq | hmem
        · exact ⟨env, List.mem_cons_self _ _, by rw [heq], fun hne => absurd heq hne⟩
        · rcases ih _ _ _ hr e hmem with ⟨a, ha, hn, hch⟩
          exact ⟨a, List.mem_cons_of_mem _ ha, hn, hch⟩
    | some v =>
      simp only [util.mergeLoop, hm] at h
      by_cases hlt : v.index < fs.length
      · rw [if_pos hlt] at h
        cases hr : util.mergeLoop m sp rest (fs.take v.index ++ fs.drop (v.index + 1)) with
        | none => rw [hr] at h; exact absurd h (by simp)
        | some p =>
          obtain ⟨r1, fs1⟩ := p
          rw [hr] at h
          simp only [Option.some.injEq, Prod.mk.injEq] at h
          rw [← h.1] at he
          rcases List.mem_cons.mp he with heq | hmem
          · refine ⟨env, List.mem_cons_self _ _, ?_, ?_⟩
            · rw [heq]; cases sp <;> simp
            · intro _; rw [hm]; simp
          · rcases ih _ _ _ hr e hmem with ⟨a, ha, hn, hch⟩
            exact ⟨a, List.mem_cons_of_mem _ ha, hn, hch⟩
      · rw [if_neg hlt] at h
        exact absurd h (by simp)

/-- What remains of the filtered source list after the walk is a subset of
what the walk started from. -/
theorem mergeLoop_snd_subset (m : List (String × util.SourceMapItem)) (sp : Bool) :
    ∀ (res fs r fsOut : List kapi.EnvVar),
      util.mergeLoop m sp res fs = some (r, fsOut) → fsOut ⊆ fs := by
  intro res
  induction res with
  | nil =>
    intro fs r fsOut h
    simp only [util.mergeLoop, Option.some.injEq, Prod.mk.injEq] at h
    rw [← h.2]
    exact List.Subset.refl _
  | cons env rest ih =>
    intro fs r fsOut h
    cases hm : util.mapLookup m env.name with
    | none =>
      simp only [util.mergeLoop, hm] at h
      cases hr : util.mergeLoop m sp rest fs with
      | none => rw [hr] at h; exact absurd h (by simp)
      | some p =>
        obtain ⟨r1, fs1⟩ := p
        rw [hr] at h
        simp only [Option.some.injEq, Prod.mk.injEq] at h
        rw [← h.2]
        exact ih _ _ _ hr
    | some v =>
      simp only [util.mergeLoop, hm] at h
      by_cases hlt : v.index < fs.length
      · rw [if_pos hlt] at h
        cases hr : util.mergeLoop m sp rest (fs.take v.index ++ fs.drop (v.index + 1)) with
        | none => rw [hr] at h; exact absurd h (by simp)
        | some p =>
          obtain ⟨r1, fs1⟩ := p
          rw [hr] at h
          simp only [Option.some.injEq, Prod.mk.injEq] at h
          rw [← h.2]
          refine (ih _ _ _ hr).trans ?_
          intro x hx
          rcases List.mem_append.mp hx with h1 | h2
          · exact List.take_subset _ _ h1
          · exact List.drop_subset _ _ h2
      · rw [if_neg hlt] at h
        exact absurd h (by simp)

/-- The `sourcePrecedence` flag influences neither the control flow of the
walk, nor the names of the walked entries, nor the remaining filtered
source list. -/
theorem mergeLoop_flag (m : List (String × util.SourceMapItem)) :
    ∀ (res fs : List kapi.EnvVar),
      Option.map (fun p : List kapi.EnvVar × List kapi.EnvVar =>
          (p.1.map kapi.EnvVar.name, p.2)) (util.mergeLoop m true res fs) =
      Option.map (fun p : List kapi.EnvVar × List kapi.EnvVar =>
          (p.1.map kapi.EnvVar.name, p.2)) (util.mergeLoop m false res fs) := by
  intro res
  induction res with
  | nil => intro fs; simp [util.mergeLoop]
  | cons env rest ih =>
    intro fs
    cases hm : util.mapLookup m env.name with
    | none =>
      simp only [util.mergeLoop, hm]
      have h := ih fs
      cases h1 : util.mergeLoop m true rest fs with
      | none =>
        cases h2 : util.mergeLoop m false rest fs with
        | none => simp
        | some q => rw [h1, h2] at h; exact absurd h (by simp)
      | some p =>
        cases h2 : util.mergeLoop m false rest fs with
        | none => rw [h1, h2] at h; exact absurd h (by simp)
        | some q =>
          obtain ⟨r1, fs1⟩ := p
          obtain ⟨r2, fs2⟩ := q
          rw [h1, h2] at h
          simp only [Option.map_some', Option.some.injEq, Prod.mk.injEq] at h
          simp [h.1, h.2]
    | some v =>
      simp only [util.mergeLoop, hm]
      by_cases hlt : v.index < fs.length
      · rw [if_pos hlt, if_pos hlt]
        have h := ih (fs.take v.index ++ fs.drop (v.index + 1))
        cases h1 : util.mergeLoop m true rest (fs.take v.index ++ fs.drop (v.index + 1)) with
        | none =>
          cases h2 : util.mergeLoop m false rest (fs.take v.index ++ fs.drop (v.index + 1)) with
          | none => simp
          | some q => rw [h1, h2] at h; exact absurd h (by simp)
        | some p =>
          cases h2 : util.mergeLoop m false rest (fs.take v.index ++ fs.drop (v.index + 1)) with
          | none => rw [h1, h2] at h; exact absurd h (by simp)
          | some q =>
            obtain ⟨r1, fs1⟩ := p
            obtain ⟨r2, fs2⟩ := q
            rw [h1, h2] at h
            simp only [Option.map_some', Option.some.injEq, Prod.mk.injEq] at h
            simp [h.1, h.2]
      · rw [if_neg hlt, if_neg hlt]

/-- A `Forall₂` relation that preserves names yields equal name lists. -/
theorem forall₂_name_map {R : kapi.EnvVar → kapi.EnvVar → Prop}
    (hR : ∀ a b, R a b → b.name = a.name) :
    ∀ {l l' : List kapi.EnvVar}, List.Forall₂ R l l' →
      l'.map kapi.EnvVar.name = l.map kapi.EnvVar.name := by
  intro l l' h
  induction h with
  | nil => rfl
  | cons hab _ ih => simp [ih, hR _ _ hab]

/-! ## Claim theorems -/

/-- Claim C1: for every call to `MergeTrustedEnvWithoutDuplicates` that
returns, every name present in the final output that was not already
present in the original output is a member of the whitelist; moreover any
final entry with a non-whitelisted name is an untouched entry of the
original output, so no entry of `source` with a non-whitelisted name is
ever added to the output. -/
theorem merge_whitelist_closure (wl : List String) (source output : List kapi.EnvVar)
    (sp : Bool) (final : List kapi.EnvVar)
    (h : util.MergeTrustedEnvWithoutDuplicates wl source output sp = some final) :
    (∀ e ∈ final, e.name ∈ output.map kapi.EnvVar.name ∨ e.name ∈ wl) ∧
    (∀ e ∈ final, e.name ∉ wl → e ∈ output) := by
  simp only [util.MergeTrustedEnvWithoutDuplicates] at h
  cases hr : util.mergeLoop (util.filterLoop wl source [] [] 0).2 sp output
      (util.filterLoop wl source [] [] 0).1 with
  | none => rw [hr] at h; exact absurd h (by simp)
  | some p =>
    obtain ⟨r, fsOut⟩ := p
    rw [hr] at h
    simp only [Option.some.injEq] at h
    have hmem := mergeLoop_mem_fst _ sp output _ r fsOut hr
    have hsub := mergeLoop_snd_subset _ sp output _ r fsOut hr
    constructor
    · intro e he
      rw [← h] at he
      rcases List.mem_append.mp he with h1 | h2
      · rcases hmem e h1 with ⟨a, ha, hn, _⟩
        exact Or.inl (List.mem_map.mpr ⟨a, ha, hn.symm⟩)
      · rcases filterLoop_fst_mem wl source [] [] 0 e (hsub h2) with h3 | h4
        · exact absurd h3 (List.not_mem_nil e)
        · exact Or.inr h4
    · intro e he hwl
      rw [← h] at he
      rcases List.mem_append.mp he with h1 | h2
      · rcases hmem e h1 with ⟨a, ha, hn, hch⟩
        by_cases hea : e = a
        · rw [hea]; exact ha
        · exfalso
          cases hv : util.mapLookup (util.filterLoop wl source [] [] 0).2 a.name with
          | none => exact hch hea hv
          | some v =>
            rcases filterLoop_snd_some_wl wl source [] [] 0 a.name v hv with hm0 | hin
            · exact hm0 rfl
            · exact hwl (hn ▸ hin)
      · exfalso
        rcases filterLoop_fst_mem wl source [] [] 0 e (hsub h2) with h3 | h4
        · exact absurd h3 (List.not_mem_nil e)
        · exact hwl h4

/-- Witness for C1 at a concrete input: whitelist {FOO}, source FOO=1 and
the non-whitelisted EVIL=x, original output HOME=h; the merge yields
HOME=h, FOO=1 and the conclusion holds there. -/
theorem merge_whitelist_closure_witness :
    (∀ e ∈ ([kapi.EnvVar.mk "HOME" "h", kapi.EnvVar.mk "FOO" "1"] : List kapi.EnvVar),
        e.name ∈ ([kapi.EnvVar.mk "HOME" "h"] : List kapi.EnvVar).map kapi.EnvVar.name ∨
          e.name ∈ ["FOO"]) ∧
    (∀ e ∈ ([kapi.EnvVar.mk "HOME" "h", kapi.EnvVar.mk "FOO" "1"] : List kapi.EnvVar),
        e.name ∉ ["FOO"] → e ∈ ([kapi.EnvVar.mk "HOME" "h"] : List kapi.EnvVar)) :=
  merge_whitelist_closure ["FOO"] [kapi.EnvVar.mk "FOO" "1", kapi.EnvVar.mk "EVIL" "x"]
    [kapi.EnvVar.mk "HOME" "h"] true
    [kapi.EnvVar.mk "HOME" "h", kapi.EnvVar.mk "FOO" "1"] (by decide)

/-- Claim C4: frame property of the merge.  The final output decomposes
into a walked part, in bijection with the original output, followed by the
appended part; each walked entry keeps the name (hence the position) of
the original entry, an entry whose name is not among the whitelisted
source names is byte-for-byte unchanged, and with `sourcePrecedence =
false` every original entry is byte-for-byte unchanged. -/
theorem merge_output_frame (wl : List String) (source output : List kapi.EnvVar)
    (sp : Bool) (final : List kapi.EnvVar)
    (h : util.MergeTrustedEnvWithoutDuplicates wl source output sp = some final) :
    ∃ walked appended, final = walked ++ appended ∧
      List.Forall₂ (fun a b : kapi.EnvVar =>
        b.name = a.name ∧
        (a.name ∉ util.whitelistedSourceNames wl source → b = a) ∧
        (sp = false → b = a)) output walked := by
  simp only [util.MergeTrustedEnvWithoutDuplicates] at h
  cases hr : util.mergeLoop (util.filterLoop wl source [] [] 0).2 sp output
      (util.filterLoop wl source [] [] 0).1 with
  | none => rw [hr] at h; exact absurd h (by simp)
  | some p =>
    obtain ⟨r, fsOut⟩ := p
    rw [hr] at h
    simp only [Option.some.injEq] at h
    refine ⟨r, fsOut, h.symm, ?_⟩
    refine List.Forall₂.imp ?_ (mergeLoop_frame _ sp output _ r fsOut hr)
    intro a b hab
    refine ⟨hab.1, ?_, hab.2.2⟩
    intro hnot
    apply hab.2.1
    rw [filterLoop_snd_not_source wl source [] [] 0 a.name hnot]
    rfl

/-- Witness for C4 at the spec's own example: whitelist {FOO, BAR}, source
FOO=1, BAZ=x, BAR=2, original output FOO=0, source precedence on; the
merge yields FOO=1, BAR=2. -/
theorem merge_output_frame_witness :
    ∃ walked appended,
      ([kapi.EnvVar.mk "FOO" "1", kapi.EnvVar.mk "BAR" "2"] : List kapi.EnvVar) =
        walked ++ appended ∧
      List.Forall₂ (fun a b : kapi.EnvVar =>
        b.name = a.name ∧
        (a.name ∉ util.whitelistedSourceNames ["FOO", "BAR"]
            [kapi.EnvVar.mk "FOO" "1", kapi.EnvVar.mk "BAZ" "x", kapi.EnvVar.mk "BAR" "2"] →
          b = a) ∧
        (true = false → b = a)) [kapi.EnvVar.mk "FOO" "0"] walked :=
  merge_output_frame ["FOO", "BAR"]
    [kapi.EnvVar.mk "FOO" "1", kapi.EnvVar.mk "BAZ" "x", kapi.EnvVar.mk "BAR" "2"]
    [kapi.EnvVar.mk "FOO" "0"] true
    [kapi.EnvVar.mk "FOO" "1", kapi.EnvVar.mk "BAR" "2"] (by decide)

/-- Claim C10: the `sourcePrecedence` flag changes neither the sequence of
names of the final output (first conjunct) nor the entries appended after
the original output's positions (second conjunct); it can only affect the
values of pre-existing matched entries.  Definedness (panic vs normal
return) also agrees, since `Option.map` preserves `none`. -/
theorem merge_precedence_only_values (wl : List String) (source output : List kapi.EnvVar) :
    Option.map (List.map kapi.EnvVar.name)
        (util.MergeTrustedEnvWithoutDuplicates wl source output true) =
      Option.map (List.map kapi.EnvVar.name)
        (util.MergeTrustedEnvWithoutDuplicates wl source output false) ∧
    Option.map (fun l => l.drop output.length)
        (util.MergeTrustedEnvWithoutDuplicates wl source output true) =
      Option.map (fun l => l.drop output.length)
        (util.MergeTrustedEnvWithoutDuplicates wl source output false) := by
  have hflag := mergeLoop_flag (util.filterLoop wl source [] [] 0).2 output
      (util.filterLoop wl source [] [] 0).1
  simp only [util.MergeTrustedEnvWithoutDuplicates]
  cases h1 : util.mergeLoop (util.filterLoop wl source [] [] 0).2 true output
      (util.filterLoop wl source [] [] 0).1 with
  | none =>
    cases h2 : util.mergeLoop (util.filterLoop wl source [] [] 0).2 false output
        (util.filterLoop wl source [] [] 0).1 with
    | none => simp
    | some q => rw [h1, h2] at hflag; exact absurd hflag (by simp)
  | some p =>
    cases h2 : util.mergeLoop (util.filterLoop wl source [] [] 0).2 false output
        (util.filterLoop wl source [] [] 0).1 with
    | none => rw [h1, h2] at hflag; exact absurd hflag (by simp)
    | some q =>
      obtain ⟨r1, fs1⟩ := p
      obtain ⟨r2, fs2⟩ := q
      rw [h1, h2] at hflag
      simp only [Option.map_some', Option.some.injEq, Prod.mk.injEq] at hflag
      have hlen1 := (mergeLoop_frame _ true output _ r1 fs1 h1).length_eq
      have hlen2 := (mergeLoop_frame _ false output _ r2 fs2 h2).length_eq
      have e1 : (r1 ++ fs1).drop output.length = fs1 := by
        rw [hlen1]; exact List.drop_left _ _
      have e2 : (r2 ++ fs2).drop output.length = fs2 := by
        rw [hlen2]; exact List.drop_left _ _
      constructor
      · simp only [Option.map_some', Option.some.injEq]
        rw [List.map_append, List.map_append, hflag.1, hflag.2]
      · simp only [Option.map_some', Option.some.injEq]
        rw [e1, e2, hflag.2]

/-- Claim C2 (code bug): with whitelist {A, B, C}, source A=1, B=2, C=3 and
an original output containing A and B, the removal of B uses its recorded
position 1, which is stale after A's removal shifted the filtered list;
the wrong element C is spliced out, so the matched entry B is appended a
second time, yielding duplicate name B (against the function's own
documentation, "without having duplicate items in the output list") and
silently dropping C. -/
theorem merge_removal_shift_bug :
    util.MergeTrustedEnvWithoutDuplicates ["A", "B", "C"]
      [kapi.EnvVar.mk "A" "1", kapi.EnvVar.mk "B" "2", kapi.EnvVar.mk "C" "3"]
      [kapi.EnvVar.mk "A" "0", kapi.EnvVar.mk "B" "0"] true =
      some [kapi.EnvVar.mk "A" "1", kapi.EnvVar.mk "B" "2", kapi.EnvVar.mk "B" "2"] := by
  decide

/-- Claim C3 (code bug): merging source A=1, B=2 (whitelist {A, B}) into an
empty output yields A=1, B=2; applying the same merge a second time to that
result is not the identity — the removal of B uses the stale recorded
position 1 after A's removal, and the Go slice expression
`filteredSource[2:]` on a list of length 1 panics (modelled as `none`). -/
theorem merge_not_idempotent_bug :
    util.MergeTrustedEnvWithoutDuplicates ["A", "B"]
      [kapi.EnvVar.mk "A" "1", kapi.EnvVar.mk "B" "2"] [] true =
      some [kapi.EnvVar.mk "A" "1", kapi.EnvVar.mk "B" "2"] ∧
    util.MergeTrustedEnvWithoutDuplicates ["A", "B"]
      [kapi.EnvVar.mk "A" "1", kapi.EnvVar.mk "B" "2"]
      [kapi.EnvVar.mk "A" "1", kapi.EnvVar.mk "B" "2"] true = none := by
  decide

/-- Counterexample to claim C5 as stated: a strategy whose Docker variant
is set but whose Docker `From` pointer is nil makes `GetInputReference`
return nil even though a variant is set, refuting "returns nil if and only
if no variant is set". -/
theorem getInputReference_docker_nil_cex :
    util.GetInputReference (buildapi.BuildStrategy.mk none
        (some (buildapi.DockerBuildStrategy.mk none)) none) = none ∧
    (buildapi.BuildStrategy.mk none
        (some (buildapi.DockerBuildStrategy.mk none)) none).DockerStrategy ≠ none := by
  decide

/-- Claim C5 as amended: the variants are checked in the fixed order
Source, Docker, Custom and the `From` of the first set variant is
returned — for Source and Custom always a reference, for Docker the
possibly-nil `From` pointer itself; the result is nil iff no variant is
set or the first set variant is Docker with a nil `From`. -/
theorem getInputReference_cases :
    (∀ (st : buildapi.BuildStrategy) (s : buildapi.SourceBuildStrategy),
        st.SourceStrategy = some s → util.GetInputReference st = some s.From) ∧
    (∀ (st : buildapi.BuildStrategy) (d : buildapi.DockerBuildStrategy),
        st.SourceStrategy = none → st.DockerStrategy = some d →
        util.GetInputReference st = d.From) ∧
    (∀ (st : buildapi.BuildStrategy) (c : buildapi.CustomBuildStrategy),
        st.SourceStrategy = none → st.DockerStrategy = none →
        st.CustomStrategy = some c → util.GetInputReference st = some c.From) ∧
    (∀ st : buildapi.BuildStrategy,
        st.SourceStrategy = none → st.DockerStrategy = none →
        st.CustomStrategy = none → util.GetInputReference st = none) ∧
    (∀ st : buildapi.BuildStrategy, util.GetInputReference st = none ↔
        st.SourceStrategy = none ∧
        (st.DockerStrategy = some (buildapi.DockerBuildStrategy.mk none) ∨
          (st.DockerStrategy = none ∧ st.CustomStrategy = none))) := by
  refine ⟨?_, ?_, ?_, ?_, ?_⟩
  · intro st s hs
    obtain ⟨s0, d0, c0⟩ := st
    cases hs
    simp [util.GetInputReference]
  · intro st d h1 h2
    obtain ⟨s0, d0, c0⟩ := st
    cases h1
    cases h2
    simp [util.GetInputReference]
  · intro st c h1 h2 h3
    obtain ⟨s0, d0, c0⟩ := st
    cases h1
    cases h2
    cases h3
    simp [util.GetInputReference]
  · intro st h1 h2 h3
    obtain ⟨s0, d0, c0⟩ := st
    cases h1
    cases h2
    cases h3
    simp [util.GetInputReference]
  · intro st
    obtain ⟨s0, d0, c0⟩ := st
    cases s0 with
    | some s1 => simp [util.GetInputReference]
    | none =>
      cases d0 with
      | some d1 =>
        obtain ⟨f1⟩ := d1
        cases f1 with
        | none => simp [util.GetInputReference]
        | some r1 => simp [util.GetInputReference]
      | none =>
        cases c0 with
        | some c1 => simp [util.GetInputReference]
        | none => simp [util.GetInputReference]

/-- Witness for the amended C5 at a concrete input: a source-strategy
build's input reference is the source variant's `From`. -/
theorem getInputReference_cases_witness :
    util.GetInputReference (buildapi.BuildStrategy.mk
        (some (buildapi.SourceBuildStrategy.mk
          (kapi.ObjectReference.mk "ImageStreamTag" "app:latest"))) none none) =
      some (kapi.ObjectReference.mk "ImageStreamTag" "app:latest") :=
  getInputReference_cases.1 _ _ rfl

/-- Claim C6: `ConfigNameForBuild` returns "" on nil; otherwise the
owning-config annotation's value whenever that key exists (even when the
value is empty), else the current-scheme label's value whenever that key
exists, else the deprecated label's value with "" for an absent key — one
source honored, in that priority order. -/
theorem configNameForBuild_priority :
    util.ConfigNameForBuild none = "" ∧
    (∀ (b : buildapi.Build) (v : String),
        util.mapLookup b.annotations buildapi.BuildConfigAnnotation = some v →
        util.ConfigNameForBuild (some b) = v) ∧
    (∀ (b : buildapi.Build) (v : String),
        util.mapLookup b.annotations buildapi.BuildConfigAnnotation = none →
        util.mapLookup b.labels buildapi.BuildConfigLabel = some v →
        util.ConfigNameForBuild (some b) = v) ∧
    (∀ b : buildapi.Build,
        util.mapLookup b.annotations buildapi.BuildConfigAnnotation = none →
        util.mapLookup b.labels buildapi.BuildConfigLabel = none →
        util.ConfigNameForBuild (some b) =
          (util.mapLookup b.labels buildapi.BuildConfigLabelDeprecated).getD "") := by
  refine ⟨rfl, ?_, ?_, ?_⟩
  · intro b v h
    simp [util.ConfigNameForBuild, h]
  · intro b v h1 h2
    simp [util.ConfigNameForBuild, h1, h2]
  · intro b h1 h2
    simp [util.ConfigNameForBuild, h1, h2]

/-- Witness for C6 at a concrete input: the annotation wins over a
conflicting current-scheme label. -/
theorem configNameForBuild_priority_witness :
    util.ConfigNameForBuild (some (buildapi.Build.mk "ns" "b1"
        [(buildapi.BuildConfigAnnotation, "cfg")]
        [(buildapi.BuildConfigLabel, "other")] buildapi.BuildPhase.New)) = "cfg" :=
  configNameForBuild_priority.2.1 _ "cfg" rfl

/-- Claim C7: `BuildNumber` errors exactly when the build-number annotation
is absent (NotFound-style error carrying the build's namespace and name)
or present but unparsable (the `strconv` error propagated, with the parsed
pair returned verbatim); `VersionForBuild` on the same annotation state
returns 0 silently — also on a nil build — and the parsed integer
otherwise. -/
theorem buildNumber_version_contract (b : buildapi.Build) :
    ((util.BuildNumber b).2 ≠ none ↔
      util.mapLookup b.annotations buildapi.BuildNumberAnnotation = none ∨
      ∃ s, util.mapLookup b.annotations buildapi.BuildNumberAnnotation = some s ∧
        (strconv.ParseInt s).2 ≠ none) ∧
    (util.mapLookup b.annotations buildapi.BuildNumberAnnotation = none →
      util.BuildNumber b = (0, some (util.BuildNumberError.notFound b.nspace b.name)) ∧
      util.VersionForBuild (some b) = 0) ∧
    (∀ s, util.mapLookup b.annotations buildapi.BuildNumberAnnotation = some s →
      util.BuildNumber b =
        ((strconv.ParseInt s).1, ((strconv.ParseInt s).2).map util.BuildNumberError.parseFailed) ∧
      (∀ e, (strconv.ParseInt s).2 = some e → util.VersionForBuild (some b) = 0) ∧
      ((strconv.ParseInt s).2 = none → util.VersionForBuild (some b) = (strconv.ParseInt s).1)) ∧
    util.VersionForBuild none = 0 := by
  cases hl : util.mapLookup b.annotations buildapi.BuildNumberAnnotation with
  | none =>
    refine ⟨?_, fun _ => ⟨?_, ?_⟩, ?_, rfl⟩
    · simp [util.BuildNumber, hl]
    · simp [util.BuildNumber, hl]
    · simp only [util.VersionForBuild, hl]
      rfl
    · intro s hs
      cases hs
  | some s0 =>
    refine ⟨?_, ?_, ?_, rfl⟩
    · constructor
      · intro hne
        refine Or.inr ⟨s0, rfl, ?_⟩
        intro h0
        apply hne
        simp [util.BuildNumber, hl, h0]
      · intro hor
        rcases hor with h0 | ⟨s1, hs1, hne⟩
        · cases h0
        · injection hs1 with hss
          subst hss
          cases hp : (strconv.ParseInt s0).2 with
          | none => exact absurd hp hne
          | some e => simp [util.BuildNumber, hl, hp]
    · intro h0
      cases h0
    · intro s hs
      injection hs with hss
      subst hss
      refine ⟨?_, ?_, ?_⟩
      · simp [util.BuildNumber, hl]
      · intro e he
        simp [util.VersionForBuild, hl, strconv.Atoi, he]
      · intro hnone
        simp [util.VersionForBuild, hl, strconv.Atoi, hnone]

/-- Witness for C7 at a concrete input: a build with no build-number
annotation gets the NotFound-style error naming its namespace and name,
while `VersionForBuild` silently returns 0. -/
theorem buildNumber_version_contract_witness :
    util.BuildNumber (buildapi.Build.mk "ns" "demo" [] [] buildapi.BuildPhase.New) =
      (0, some (util.BuildNumberError.notFound "ns" "demo")) ∧
    util.VersionForBuild
      (some (buildapi.Build.mk "ns" "demo" [] [] buildapi.BuildPhase.New)) = 0 :=
  (buildNumber_version_contract _).2.1 rfl

/-- The item loop of `BuildConfigBuilds` is `List.filter`. -/
theorem filterBuildItems_eq_filter (f : buildapi.Build → Bool) :
    ∀ l : List buildapi.Build, util.filterBuildItems f l = l.filter f := by
  intro l
  induction l with
  | nil => rfl
  | cons b rest ih =>
    by_cases hb : f b
    · simp [util.filterBuildItems, List.filter, hb, ih]
    · simp [util.filterBuildItems, List.filter, hb, ih]

/-- Claim C8: `BuildConfigBuilds` propagates a lister error unchanged;
with a nil filter it returns the lister's result unmodified; with a
non-nil filter it returns a new list carrying the original TypeMeta and
ListMeta and exactly the items the filter accepts, in original order
(`List.filter`). -/
theorem buildConfigBuilds_contract :
    (∀ (c : util.BuildLister) (ns n : String) (f : Option (buildapi.Build → Bool)) (e : String),
        c ns (util.ListOptions.mk (util.BuildConfigSelector n)) = Except.error e →
        util.BuildConfigBuilds c ns n f = Except.error e) ∧
    (∀ (c : util.BuildLister) (ns n : String) (r : buildapi.BuildList),
        c ns (util.ListOptions.mk (util.BuildConfigSelector n)) = Except.ok r →
        util.BuildConfigBuilds c ns n none = Except.ok r) ∧
    (∀ (c : util.BuildLister) (ns n : String) (f : buildapi.Build → Bool)
        (r : buildapi.BuildList),
        c ns (util.ListOptions.mk (util.BuildConfigSelector n)) = Except.ok r →
        util.BuildConfigBuilds c ns n (some f) =
          Except.ok (buildapi.BuildList.mk r.typeMeta r.listMeta (r.items.filter f))) := by
  refine ⟨?_, ?_, ?_⟩
  · intro c ns n f e h
    simp [util.BuildConfigBuilds, h]
  · intro c ns n r h
    simp [util.BuildConfigBuilds, h]
  · intro c ns n f r h
    simp [util.BuildConfigBuilds, h, filterBuildItems_eq_filter]

/-- Witness for C8 at a concrete input: a lister returning one item and an
always-false filter yield an empty item list under the original
metadata. -/
theorem buildConfigBuilds_contract_witness :
    util.BuildConfigBuilds
        (fun _ _ => Except.ok (buildapi.BuildList.mk
          (kapi.TypeMeta.mk "BuildList" "v1") (kapi.ListMeta.mk "/lists/1" "42")
          [buildapi.Build.mk "ns" "b1" [] [] buildapi.BuildPhase.New]))
        "ns" "cfg" (some (fun _ => false)) =
      Except.ok (buildapi.BuildList.mk
        (kapi.TypeMeta.mk "BuildList" "v1") (kapi.ListMeta.mk "/lists/1" "42")
        ([buildapi.Build.mk "ns" "b1" [] [] buildapi.BuildPhase.New].filter
          (fun _ => false))) :=
  buildConfigBuilds_contract.2.2 _ "ns" "cfg" _ _ rfl

/-- Claim C9: `IsBuildComplete`, `IsPaused`, `BuildNumber` and
`BuildRunPolicy` dereference their pointer argument without a nil check —
their Go-level embeddings are undefined (`none`) on nil — whereas
`ConfigNameForBuild`, `VersionForBuild` and `GetBuildName` are total on
nil, returning their documented defaults. -/
theorem nil_dereference_contract :
    util.IsBuildCompleteGo none = none ∧
    util.IsPausedGo none = none ∧
    util.BuildNumberGo none = none ∧
    util.BuildRunPolicyGo none = none ∧
    util.ConfigNameForBuild none = "" ∧
    util.VersionForBuild none = 0 ∧
    util.GetBuildName none = "" :=
  ⟨rfl, rfl, rfl, rfl, rfl, rfl, rfl⟩
